import Mathlib

/-!
Verification of the stock-tracker filing-extraction pipeline.

This file gives a shallow embedding, in Lean 4, of the extraction pipeline of
the repository (SEC 13F institutional-holdings scraping and Form 4 insider
transaction scraping), and proves or refutes the frozen behavioural claims
about it.

Conventions of the embedding:
* XML documents are modelled post-parse, as rose trees (`Xml`); the textual
  preprocessing (namespace stripping, prolog removal) and `ET.fromstring` are
  modelled by taking the tree as input, with parse failure as `Option.none`.
* Python strings are `String`/`List Char`; `str.lower`, `str.upper`,
  `str.strip`, `in` (substring), `str.split` are re-implemented on `List Char`
  so that everything kernel-evaluates.
* Python floats are modelled as exact rationals (`ℚ`); `float(text)` is
  modelled for plain signed decimal literals, which is the only form the
  parsed filings carry.  Machine integers are `Nat` (never negative in the
  sources modelled).
* Network effects are parameters: a fetch is a function `String → Option body`
  (`none` models a request error / raised exception), and document manifests
  are passed as the list of anchor links the HTML scrape yields.
* A Python exception that a function catches and converts into a `None`/`[]`
  result is modelled by that result; an exception that escapes to the HTTP
  layer is modelled with `Except.error`.
-/

/-! ## Generic helpers -/

/-- First `some` result of `f` over a list, mirroring a Python
`for`-loop that returns on the first hit and falls through otherwise. -/
def firstSome (f : α → Option β) : List α → Option β
  | [] => none
  | x :: xs =>
    match f x with
    | some b => some b
    | none => firstSome f xs

/-- Pairs every list element with its index, mirroring Python `enumerate`. -/
def enumIdx (i : Nat) : List α → List (Nat × α)
  | [] => []
  | x :: xs => (i, x) :: enumIdx (i + 1) xs

/-- Python `s.startswith(t)` on character lists. -/
def listStartsWith : List Char → List Char → Bool
  | _, [] => true
  | [], _ :: _ => false
  | a :: as, b :: bs => a = b && listStartsWith as bs

/-- Python substring containment `needle in hay` on character lists. -/
def containsSub (hay needle : List Char) : Bool :=
  listStartsWith hay needle ||
    match hay with
    | [] => false
    | _ :: t => containsSub t needle

/-- Python `s.endswith(t)` on character lists. -/
def listEndsWith (hay needle : List Char) : Bool :=
  listStartsWith hay.reverse needle.reverse

/-- The whitespace characters that Python `str.strip()` removes. -/
def pyWhitespace (c : Char) : Bool :=
  c = ' ' || c = '\t' || c = '\n' || c = '\r' || c = '\x0b' || c = '\x0c'

/-- Python `str.strip()` on character lists. -/
def pyStrip (l : List Char) : List Char :=
  ((l.dropWhile pyWhitespace).reverse.dropWhile pyWhitespace).reverse

/-- Numeric value of a list of decimal digit characters (Python `int`). -/
def natOfDigits (l : List Char) : Nat :=
  l.foldl (fun acc c => acc * 10 + (c.toNat - '0'.toNat)) 0

/-- Python `str.isdigit()` restricted to ASCII digits (the only digits the
filings carry): nonempty and all characters decimal digits. -/
def pyIsDigit (l : List Char) : Bool :=
  !l.isEmpty && l.all Char.isDigit

/-- A character allowed inside a `re.findall(r'(\d[\d,]*)')` token after the
leading digit. -/
def isNumChar (c : Char) : Bool := c.isDigit || c = ','

/-- Fuelled scanner for the maximal digit-and-comma tokens that
`re.findall(r'(\d[\d,]*)', line)` yields, left to right, non-overlapping. -/
def numTokensFuel : Nat → List Char → List (List Char)
  | 0, _ => []
  | _ + 1, [] => []
  | fuel + 1, c :: cs =>
    if c.isDigit then
      (c :: cs.takeWhile isNumChar) :: numTokensFuel fuel (cs.dropWhile isNumChar)
    else
      numTokensFuel fuel cs

/-- All `\d[\d,]*` tokens of a line. -/
def numTokens (l : List Char) : List (List Char) :=
  numTokensFuel l.length l

/-- Python `text.split('\n')` on character lists. -/
def splitLinesAux (cur : List Char) : List Char → List (List Char)
  | [] => [cur.reverse]
  | c :: cs =>
    if c = '\n' then cur.reverse :: splitLinesAux [] cs
    else splitLinesAux (c :: cur) cs

def splitLines (l : List Char) : List (List Char) := splitLinesAux [] l

/-- Python `'\n'.join(lines)` on character lists. -/
def joinNL : List (List Char) → List Char
  | [] => []
  | [l] => l
  | l :: ls => l ++ '\n' :: joinNL ls

/-- Python string comparison `s < t`: lexicographic by code point, a
proper prefix comparing smaller.  (Lean's own `String` order is
byte-position based and does not kernel-evaluate, so the comparison is
re-implemented on character lists.) -/
def listLt : List Char → List Char → Bool
  | [], [] => false
  | [], _ :: _ => true
  | _ :: _, [] => false
  | a :: as, b :: bs => a.toNat < b.toNat || (a = b && listLt as bs)

/-- Insertion into an ascending list, for Python `list.sort()`. -/
def insertAsc (x : Nat) : List Nat → List Nat
  | [] => [x]
  | y :: ys => if x ≤ y then x :: y :: ys else y :: insertAsc x ys

/-- Python `list.sort()` (ascending) for lists of naturals. -/
def sortAsc : List Nat → List Nat
  | [] => []
  | x :: xs => insertAsc x (sortAsc xs)

/-- Value of a signed decimal literal, as Python `float` reads it
(`"-12.75"`, `"100"`, `".5"`, `"3."`); `none` models `float` raising
`ValueError`.  Exponent forms do not occur in the filings and are not
modelled. -/
def parseDecimal (l : List Char) : Option ℚ :=
  let l := pyStrip l
  let (sign, rest) : ℚ × List Char :=
    match l with
    | '-' :: r => (-1, r)
    | '+' :: r => (1, r)
    | r => (1, r)
  let intPart := rest.takeWhile Char.isDigit
  let rest2 := rest.dropWhile Char.isDigit
  match rest2 with
  | [] =>
    if intPart.isEmpty then none
    else some (sign * (natOfDigits intPart : ℚ))
  | '.' :: fracRest =>
    let fracPart := fracRest.takeWhile Char.isDigit
    if fracRest.dropWhile Char.isDigit ≠ [] then none
    else if intPart.isEmpty && fracPart.isEmpty then none
    else some (sign * ((natOfDigits intPart : ℚ) +
      (natOfDigits fracPart : ℚ) / (10 ^ fracPart.length : ℚ)))
  | _ => none

/-- Python `float(elem.text)` where `elem.text` may be `None`; `none` models
the raised `TypeError`/`ValueError` (caught by the per-record handler). -/
def parseDecimalOpt : Option String → Option ℚ
  | none => none
  | some s => parseDecimal s.data

/-! ## XML document model

`xml.etree.ElementTree` elements, after the namespace-stripping
preprocessing of `parse_13f_xml_robust`: a tag, optional text and a
child list.  `XmlList` is a mutual copy of `List Xml` so that all
recursions stay structural and kernel-evaluable. -/

mutual
inductive Xml where
  | node (tag : String) (text : Option String) (children : XmlList)
  deriving DecidableEq
inductive XmlList where
  | nil
  | cons (x : Xml) (xs : XmlList)
  deriving DecidableEq
end

def Xml.tag : Xml → String
  | .node t _ _ => t

def Xml.text : Xml → Option String
  | .node _ tx _ => tx

def XmlList.toList : XmlList → List Xml
  | .nil => []
  | .cons x xs => x :: xs.toList

def Xml.childList : Xml → List Xml
  | .node _ _ cs => cs.toList

mutual
/-- Document-order (preorder) traversal, `elem.iter()`: the element itself
followed by every descendant. -/
def preorder : Xml → List Xml
  | .node t tx cs => .node t tx cs :: preorderList cs
def preorderList : XmlList → List Xml
  | .nil => []
  | .cons c cs => preorder c ++ preorderList cs
end

/-- All strict descendants of an element, in document order. -/
def descendants (x : Xml) : List Xml :=
  match x with
  | .node _ _ cs => preorderList cs

/-- ElementTree `elem.find('.//tag')`: first descendant with the tag. -/
def findDesc (tag : String) (x : Xml) : Option Xml :=
  (descendants x).find? (fun e => e.tag = tag)

/-- ElementTree `elem.findall('.//tag')`: all descendants with the tag. -/
def findAllDesc (tag : String) (x : Xml) : List Xml :=
  (descendants x).filter (fun e => e.tag = tag)

/-- ElementTree `elem.find('.//t1/t2')`: first `t2` child of a `t1`
descendant, in document order. -/
def findDescChild (t1 t2 : String) (x : Xml) : Option Xml :=
  firstSome
    (fun a =>
      if a.tag = t1 then a.childList.find? (fun c => c.tag = t2) else none)
    (descendants x)

/-- ElementTree `elem.find('.//t1/t2/t3')`. -/
def findDescChild2 (t1 t2 t3 : String) (x : Xml) : Option Xml :=
  firstSome
    (fun a =>
      if a.tag = t1 then
        firstSome
          (fun b =>
            if b.tag = t2 then b.childList.find? (fun c => c.tag = t3)
            else none)
          a.childList
      else none)
    (descendants x)

/-! ## Structured Holdings Parser (`parse_13f_xml_robust`) -/

/-- The target security identifier, `WDAY_CUSIP = "98138H101"`. -/
def wdayCusip : List Char := "98138H101".data

/-- One extracted 13F holding: the dictionary
`shares / value_dollars` both holdings parsers return. -/
structure Holding13F where
  shares : Nat
  valueDollars : Nat
  deriving DecidableEq, Repr

/-- Digit value of an element's text under the source's guard
`child.text and child.text.strip().isdigit()`; `none` when the guard fails. -/
def elemDigitVal (e : Xml) : Option Nat :=
  match e.text with
  | none => none
  | some t =>
    if t.data.isEmpty then none
    else
      let st := pyStrip t.data
      if pyIsDigit st then some (natOfDigits st) else none

/-- The identifier hit test `elem.text and elem.text.strip() == WDAY_CUSIP`. -/
def isCusipHit (e : Xml) : Bool :=
  match e.text with
  | none => false
  | some t => !t.data.isEmpty && pyStrip t.data = wdayCusip

/-- One step of the shares/value scan over a subtree: later matching
elements overwrite earlier ones, exactly as the source's repeated
assignments to `shares_found` / `value_found` do.  The dead
`'valueUSD' not in tag_lower` test of the source is kept verbatim (it is
vacuous: `tag_lower` is lower-cased). -/
def stepPair (sv : Option Nat × Option Nat) (c : Xml) : Option Nat × Option Nat :=
  let tl := String.mk (c.tag.data.map Char.toLower)
  let s :=
    if containsSub tl.data "sshprnamt".data || containsSub tl.data "shrs".data then
      match elemDigitVal c with
      | some n => some n
      | none => sv.1
    else sv.1
  let v :=
    if containsSub tl.data "value".data && !containsSub tl.data "valueUSD".data then
      match elemDigitVal c with
      | some n => some n
      | none => sv.2
    else sv.2
  (s, v)

/-- Scan one candidate context element's full subtree for a
shares/value pair and apply the source's acceptance test:
`if shares_found and value_found` (Python truthiness, so zero fails) and
`if shares_found != 98138 and shares_found > 100000`.  On success the value
is scaled: `value_found * 1000`. -/
def subtreeCheck (p : Xml) : Option Holding13F :=
  match (preorder p).foldl stepPair (none, none) with
  | (some s, some v) =>
    if s ≠ 0 ∧ v ≠ 0 then
      if s ≠ 98138 ∧ 100000 < s then some ⟨s, v * 1000⟩ else none
    else none
  | _ => none

/-- The source's `for _ in range(5)` walk from a hit at preorder index `k`:
`parent = list(root.iter())[list(root.iter()).index(parent) - 1]` steps to
the previous element in document order (stopping at the root), and each
step's subtree is checked.  `fuel` is the remaining range count. -/
def walkLoop (pre : List Xml) : Nat → Nat → Option Holding13F
  | 0, _ => none
  | _ + 1, 0 => none
  | k + 1, fuel + 1 =>
    match pre[k]? with
    | none => none
    | some p =>
      match subtreeCheck p with
      | some r => some r
      | none => walkLoop pre k fuel

/-- The source's outer `for elem in root.iter()` loop: at each identifier
hit, run the five-step walk; return its first success. -/
def hitScan (pre : List Xml) : List (Nat × Xml) → Option Holding13F
  | [] => none
  | (k, e) :: rest =>
    if isCusipHit e then
      match walkLoop pre k 5 with
      | some r => some r
      | none => hitScan pre rest
    else hitScan pre rest

/-- `parse_13f_xml_robust` of `fetch_institutional_ownership.py` (lines
98–148), on the already-parsed element tree (the namespace-stripping regex
preprocessing and `ET.fromstring` are modelled by the `Xml` input;
a malformed document is modelled at the call sites as no tree). -/
def parse_13f_xml_robust (root : Xml) : Option Holding13F :=
  let pre := preorder root
  hitScan pre (enumIdx 0 pre)

/-! ## Two re-phrasings of the walk, for the refinement claim C5

`parse_13f_xml_predWalk` states the walk the source actually performs
(up to five predecessors of the hit in document order, nearest first);
`parse_13f_xml_ancestors` states the walk described by the specification
(up to five ancestors of the hit, nearest first).  Both use the same
subtree search and validation (`subtreeCheck`). -/

/-- The candidate context elements the source's walk visits for a hit at
preorder index `k`: the five preceding elements in document order,
nearest first. -/
def predCandidates (pre : List Xml) (k : Nat) : List Xml :=
  ((pre.take k).reverse).take 5

/-- Predecessor-walk description of the structured holdings parser. -/
def parse_13f_xml_predWalk (root : Xml) : Option Holding13F :=
  let pre := preorder root
  firstSome
    (fun ke : Nat × Xml =>
      if isCusipHit ke.2 then firstSome subtreeCheck (predCandidates pre ke.1)
      else none)
    (enumIdx 0 pre)

mutual
/-- Ancestor-walk semantics modelled from the specification's words:
at each identifier hit, walk upward through the hit's ancestors (nearest
first, at most five levels) and search each ancestor's full subtree with
the same shares/value search and validation as the source. `ancs` is the
ancestor chain of the current element, nearest first. -/
def ancWalk (ancs : List Xml) : Xml → Option Holding13F
  | .node t tx cs =>
    match
      (if isCusipHit (.node t tx cs) then
        firstSome subtreeCheck (ancs.take 5)
      else none) with
    | some r => some r
    | none => ancWalkList (Xml.node t tx cs :: ancs) cs
def ancWalkList (ancs : List Xml) : XmlList → Option Holding13F
  | .nil => none
  | .cons c cs =>
    match ancWalk ancs c with
    | some r => some r
    | none => ancWalkList ancs cs
end

/-- Ancestor-walk description (from the specification) of the structured
holdings parser. -/
def parse_13f_xml_ancestors (root : Xml) : Option Holding13F :=
  ancWalk [] root

/-! ## Heuristic Text Fallback Parser (`parse_13f_text_strict`) -/

def workdayUpper : List Char := "WORKDAY".data
def wdayUpper : List Char := "WDAY".data

/-- The context window `lines[max(0, i-3) : min(len(lines), i+4)]` around
line `i` (natural subtraction and `List.take` give the clamping). -/
def contextWindow (lines : List (List Char)) (i : Nat) : List (List Char) :=
  (lines.take (i + 4)).drop (i - 3)

/-- Upper-cased joined text of a context window. -/
def windowUpper (ctx : List (List Char)) : List Char :=
  (joinNL ctx).map Char.toUpper

/-- Numeric tokens collected from one context line: the line holding the
identifier is skipped entirely; each `\d[\d,]*` token is comma-stripped and
read as an integer; the identifier's numeric value and its truncated form
are discarded, and only values above 10000 are kept. -/
def lineNumbers (l : List Char) : List Nat :=
  if containsSub l wdayCusip then []
  else
    (numTokens l).filterMap fun tok =>
      let n := natOfDigits (tok.filter (fun c => c ≠ ','))
      if n = 98138 ∨ n = 98138101 then none
      else if 10000 < n then some n
      else none

/-- All numbers collected across a context window, in line order. -/
def collectNumbers (ctx : List (List Char)) : List Nat :=
  (ctx.map lineNumbers).flatten

/-- The classification and acceptance step of the heuristic parser: needs
at least two collected numbers; sorts ascending; bands them into share
candidates (`100000 < n < 50000000`) and value candidates (`n > 10000000`);
takes the smallest of each band; and accepts only when
`shares * 150 < value < shares * 350`. -/
def pickNumbers (allNumbers : List Nat) : Option Holding13F :=
  if allNumbers.length < 2 then none
  else
    match (sortAsc allNumbers).filter (fun n => 100000 < n && n < 50000000),
        (sortAsc allNumbers).filter (fun n => 10000000 < n) with
    | s :: _, v :: _ =>
      if s * 150 < v ∧ v < s * 350 then some ⟨s, v⟩ else none
    | _, _ => none

/-- One iteration of the heuristic parser's `for i, line in enumerate(lines)`
loop: skip lines without the identifier; reject the occurrence when the
context window lacks `WORKDAY` and `WDAY` (upper-cased containment);
otherwise classify the window's numbers. -/
def tryLine (lines : List (List Char)) (i : Nat) (line : List Char) :
    Option Holding13F :=
  if containsSub line wdayCusip then
    if containsSub (windowUpper (contextWindow lines i)) workdayUpper ||
        containsSub (windowUpper (contextWindow lines i)) wdayUpper then
      pickNumbers (collectNumbers (contextWindow lines i))
    else none
  else none

/-- `parse_13f_text_strict` of `fetch_institutional_ownership.py` (lines
151–222): split into lines and return the first occurrence that passes
every gate.  The enclosing `try/except` never fires on a string input
(every partial operation inside is guarded), so it is not modelled. -/
def parse_13f_text_strict (text : String) : Option Holding13F :=
  let lines := splitLines text.data
  firstSome (fun p : Nat × List Char => tryLine lines p.1 p.2) (enumIdx 0 lines)

/-! ## Structured Transaction Parser (`parse_form4_xml`)

`backend/server.py` lines 116–178 and `generate_static_data_enhanced.py`
lines 68–127 contain the same parser (the backend version additionally
reads a `transactionCode` into a variable that is never used afterwards;
it is not modelled).  Share counts, prices and totals are Python floats,
modelled as exact rationals. -/

structure Form4Trans where
  executiveName : Option String
  executiveTitle : Option String
  transactionDate : Option String
  transactionType : String
  shares : ℚ
  pricePerShare : ℚ
  totalValue : ℚ
  filingDate : String
  formType : String
  deriving DecidableEq, Repr

/-- One `nonDerivativeTransaction` element: extract date, shares, price and
the acquired/disposed code by fixed relative paths; skip the transaction
(`none`) when date, shares or price is missing or when a numeric text fails
to parse (the per-record `except` clause).  The transaction type is `Sale`
exactly when the acquired/disposed code text is `D`; a missing code element
defaults to `D`, hence `Sale`. -/
def parseNonDerivTransaction (ownerName executiveTitle : Option String)
    (filingDate : String) (t : Xml) : Option Form4Trans :=
  let transDate := findDescChild "transactionDate" "value" t
  let shares :=
    findDescChild2 "transactionAmounts" "transactionShares" "value" t
  let price :=
    findDescChild2 "transactionAmounts" "transactionPricePerShare" "value" t
  let acqDisp :=
    findDescChild2 "transactionAmounts" "transactionAcquiredDisposedCode"
      "value" t
  match transDate, shares, price with
  | some dEl, some sEl, some pEl =>
    match parseDecimalOpt sEl.text, parseDecimalOpt pEl.text with
    | some sharesVal, some priceVal =>
      let acqDispText : Option String :=
        match acqDisp with
        | some e => e.text
        | none => some "D"
      let transType := if acqDispText = some "D" then "Sale" else "Purchase"
      some
        { executiveName := ownerName
          executiveTitle := executiveTitle
          transactionDate := dEl.text
          transactionType := transType
          shares := sharesVal
          pricePerShare := priceVal
          totalValue := sharesVal * priceVal
          filingDate := filingDate
          formType := "Form 4" }
    | _, _ => none
  | _, _, _ => none

/-- `parse_form4_xml`: `none` input models `ET.fromstring` failing (the
outer `except` returns the empty list); otherwise require a
`reportingOwner` with an owner name element, default the officer title to
`Executive` when the title element is absent, and parse every
`nonDerivativeTransaction` in document order, skipping bad ones. -/
def parse_form4_xml (doc : Option Xml) (filingDate : String) :
    List Form4Trans :=
  match doc with
  | none => []
  | some root =>
    match findDesc "reportingOwner" root with
    | none => []
    | some owner =>
      match findDesc "rptOwnerName" owner with
      | none => []
      | some nameEl =>
        let executiveTitle : Option String :=
          match findDescChild "reportingOwnerRelationship" "officerTitle"
              owner with
          | some e => e.text
          | none => some "Executive"
        (findAllDesc "nonDerivativeTransaction" root).filterMap
          (parseNonDerivTransaction nameEl.text executiveTitle filingDate)

/-! ## Document Resolver

An anchor link of a filing's manifest page, and a fetched document body.
A body is one string in the source; here it carries its two views: the
element tree that `ET.fromstring` would yield on it (`none` when the string
is not well-formed XML) and its raw text. -/

structure Link where
  href : String
  anchorText : String
  deriving DecidableEq, Repr

structure Body where
  asXml : Option Xml
  asText : String
  deriving DecidableEq

/-- Relative hrefs are prefixed with the source's origin:
`"https://www.sec.gov" + href if href.startswith('/') else href`. -/
def resolveUrl (href : String) : String :=
  if listStartsWith href.data "/".data then "https://www.sec.gov" ++ href
  else href

/-- Candidate loop of one strategy of `download_and_parse_13f`: fetch each
matching link in order and parse it.  A fetch failure raises, which the
function-level handler turns into an overall `None`: modelled as
`Except.error`.  A parse returning nothing advances to the next candidate;
a non-empty parse ends the chain. -/
def tryLinks (fetch : String → Option Body) (parser : Body → Option Holding13F) :
    List Link → Except Unit (Option Holding13F)
  | [] => .ok none
  | l :: ls =>
    match fetch (resolveUrl l.href) with
    | none => .error ()
    | some b =>
      match parser b with
      | some r => .ok (some r)
      | none => tryLinks fetch parser ls

/-- Strategy 1 links: `.xml` in the href and an information-table keyword in
the lower-cased anchor text. -/
def strategy1Pred (l : Link) : Bool :=
  containsSub l.href.data ".xml".data &&
    (containsSub (l.anchorText.data.map Char.toLower) "information".data ||
     containsSub (l.anchorText.data.map Char.toLower) "infotable".data ||
     containsSub (l.anchorText.data.map Char.toLower) "table".data)

/-- Strategy 2 links: any `.xml` href. -/
def strategy2Pred (l : Link) : Bool :=
  containsSub l.href.data ".xml".data

/-- Strategy 3 links: hrefs ending in `.txt`. -/
def strategy3Pred (l : Link) : Bool :=
  listEndsWith l.href.data ".txt".data

/-- The structured parser applied to a fetched body:
`parse_13f_xml_robust(xml_response.text)` catches its own parse errors, so
a malformed body yields `none` and the chain advances. -/
def xmlBodyParse (b : Body) : Option Holding13F :=
  match b.asXml with
  | none => none
  | some x => parse_13f_xml_robust x

/-- The text fallback applied to a fetched body. -/
def textBodyParse (b : Body) : Option Holding13F :=
  parse_13f_text_strict b.asText

/-- `download_and_parse_13f` of `fetch_institutional_ownership.py` (lines
225–280), given the manifest's anchor links (the manifest page fetch and
HTML scrape are upstream; a manifest fetch failure yields no links and is
the `.error`-free all-strategies-empty case).  A fetch failure inside any
strategy aborts the whole function to `None` via the enclosing handler. -/
def download_and_parse_13f (links : List Link) (fetch : String → Option Body) :
    Option Holding13F :=
  match tryLinks fetch xmlBodyParse (links.filter strategy1Pred) with
  | .error _ => none
  | .ok (some r) => some r
  | .ok none =>
    match tryLinks fetch xmlBodyParse (links.filter strategy2Pred) with
    | .error _ => none
    | .ok (some r) => some r
    | .ok none =>
      match tryLinks fetch textBodyParse (links.filter strategy3Pred) with
      | .error _ => none
      | .ok o => o

/-- The transaction chain's link test: `.xml` in the href and not the
human-readable `xslF345X` rendering. -/
def form4LinkPred (l : Link) : Bool :=
  containsSub l.href.data ".xml".data &&
    !containsSub l.href.data "xslF345X".data

/-- `fetch_and_parse_form4` of `backend/server.py` (lines 181–213) and
`generate_static_data_enhanced.py` (lines 130–160): take the first matching
link, fetch it, and return that document's parse result unconditionally — an
empty parse is returned as-is, no later candidate is tried.  A fetch failure
raises and the handler returns the empty list. -/
def fetch_and_parse_form4 (links : List Link) (fetch : String → Option Body)
    (filingDate : String) : List Form4Trans :=
  match links.find? form4LinkPred with
  | none => []
  | some l =>
    match fetch (resolveUrl l.href) with
    | none => []
    | some b => parse_form4_xml b.asXml filingDate

/-! ## The refresh endpoint (`refresh_transactions`) -/

/-- A FastAPI `HTTPException`, as raised to the transport layer. -/
structure HttpException where
  statusCode : Nat
  detail : String
  deriving DecidableEq, Repr

/-- Starlette's `str(HTTPException)` is `f"{status_code}: {detail}"`. -/
def HttpException.str (e : HttpException) : String :=
  toString e.statusCode ++ ": " ++ e.detail

/-- A filing reference from the filings index page. -/
structure FilingRef where
  filingDate : String
  documentsUrl : String
  deriving DecidableEq, Repr

/-- The JSON body of a successful refresh. -/
structure RefreshResult where
  success : Bool
  transactionsCount : Nat
  message : String
  deriving DecidableEq, Repr

/-- `refresh_transactions` of `backend/server.py` (lines 244–288).  The
index fetch (`fetch_sec_filings`) is passed as its result: `none` when it
returned no page body.  The filings-list parse and the per-filing
fetch-and-parse are passed as functions (they involve further network
traffic); the database replace step is the out-of-scope storage
collaborator and has no bearing on the returned value.  The body runs under
`try/except Exception`, which re-raises any exception — including the
`HTTPException(500, "Failed to fetch SEC data")` raised on a fetch failure —
as `HTTPException(500, "Error refreshing data: " + str(e))`. -/
def refresh_transactions (indexHtml : Option String)
    (parseSecFilingsList : String → List FilingRef)
    (fetchParse : FilingRef → List Form4Trans) :
    Except HttpException RefreshResult :=
  let body : Except HttpException RefreshResult :=
    match indexHtml with
    | none => .error ⟨500, "Failed to fetch SEC data"⟩
    | some html =>
      let filings := parseSecFilingsList html
      let allTransactions := ((filings.take 15).map fetchParse).flatten
      .ok
        ⟨true, allTransactions.length,
          "Successfully refreshed " ++ toString allTransactions.length ++
            " transactions"⟩
  match body with
  | .error e => .error ⟨500, "Error refreshing data: " ++ e.str⟩
  | .ok r => .ok r

/-! ## Aggregation (`calculate_stats` / `generate_cluster_data`) -/

/-- A holding record as accumulated in `fetch_all_holdings`: the parsed
shares/value dictionary tagged with investor name and filing date. -/
structure HRec where
  investorName : String
  filingDate : String
  shares : Nat
  valueDollars : Nat
  deriving DecidableEq, Repr

/-- Python `by_investor` dict lookup: first record with the given name. -/
def findInv (name : String) : List HRec → Option HRec
  | [] => none
  | r :: rs => if r.investorName = name then some r else findInv name rs

/-- Python dict value replacement at an existing key: the entry keeps its
position. -/
def replaceInv (h : HRec) : List HRec → List HRec
  | [] => []
  | r :: rs =>
    if r.investorName = h.investorName then h :: rs else r :: replaceInv h rs

/-- One step of the deduplication loop shared by `calculate_stats` (lines
320–326) and `generate_cluster_data` (lines 346–350):
`if name not in by_investor or h['filing_date'] > by_investor[name]['filing_date']:
by_investor[name] = h`.  Note the strict comparison: an equal filing date
leaves the stored record in place. -/
def updInv (m : List HRec) (h : HRec) : List HRec :=
  match findInv h.investorName m with
  | none => m ++ [h]
  | some old =>
    if listLt old.filingDate.data h.filingDate.data then replaceInv h m else m

/-- The `by_investor` dict after the loop, in key insertion order: the
deduplicated one-record-per-investor list both aggregation functions build. -/
def byInvestor (hs : List HRec) : List HRec := hs.foldl updInv []

/-- Left-fold champion: the record the loop retains for one investor —
replace only on strictly later filing date, so the first record attaining
the maximal date survives. -/
def champAux (c : HRec) : List HRec → HRec
  | [] => c
  | h :: t => champAux (if listLt c.filingDate.data h.filingDate.data then h else c) t

/-- The records of one investor, in input order. -/
def filterName (name : String) (l : List HRec) : List HRec :=
  l.filter (fun r => r.investorName = name)

/-- What the loop keeps of one investor's records: nothing when there are
none, else exactly the left-fold champion. -/
def champList : List HRec → List HRec
  | [] => []
  | h :: t => [champAux h t]

/-! ## Concrete fixtures used by witnesses and counterexamples -/

/-- Build an element from a plain child list. -/
def mkNode (t : String) (tx : Option String) (cs : List Xml) : Xml :=
  .node t tx (cs.foldr (fun c acc => XmlList.cons c acc) XmlList.nil)

/-- A 13F information-table row whose share-count field holds the
identifier's own digits `98138101`. -/
def docCusipShares : Xml := mkNode "infoTable" none
  [mkNode "sshPrnamt" (some "98138101") [],
   mkNode "value" (some "2000") [],
   mkNode "cusip" (some "98138H101") []]

/-- A well-formed 13F information-table row: 2,000,000 shares worth
$500,000 thousand. -/
def docGoodXml : Xml := mkNode "infoTable" none
  [mkNode "sshPrnamt" (some "2000000") [],
   mkNode "value" (some "500000") [],
   mkNode "cusip" (some "98138H101") []]

/-- A 13F row in which five data-free elements precede the identifier, and
the share/value fields follow it.  The row element (the hit's parent) holds
a valid pair, but none of the five document-order predecessors of the hit
does. -/
def docRowC5 : Xml := mkNode "infoTable" none
  [mkNode "a1" none [], mkNode "a2" none [], mkNode "a3" none [],
   mkNode "a4" none [], mkNode "a5" none [],
   mkNode "cusip" (some "98138H101") [],
   mkNode "sshPrnamt" (some "2000000") [],
   mkNode "value" (some "500") []]

/-- A filing text whose identifier occurrence sits in a window naming the
target entity, with a plausible share count and value nearby. -/
def textGoodStr : String := "WORKDAY INC\n98138H101\n500,000 150,000,000"

/-- A filing text with the identifier and plausible numbers, but no mention
of the target entity in the window. -/
def textNoEntityStr : String := "acme corp\n98138H101\n500,000 150,000,000"

/-- A Form 4 document with one complete non-derivative transaction:
100 shares at $2.50, disposed. -/
def form4DocW : Xml := mkNode "ownershipDocument" none
  [mkNode "reportingOwner" none
    [mkNode "reportingOwnerId" none
      [mkNode "rptOwnerName" (some "Jane Doe") []],
     mkNode "reportingOwnerRelationship" none
      [mkNode "officerTitle" (some "CFO") []]],
   mkNode "nonDerivativeTable" none
    [mkNode "nonDerivativeTransaction" none
      [mkNode "transactionDate" none [mkNode "value" (some "2024-01-02") []],
       mkNode "transactionAmounts" none
        [mkNode "transactionShares" none [mkNode "value" (some "100") []],
         mkNode "transactionPricePerShare" none
          [mkNode "value" (some "2.50") []],
         mkNode "transactionAcquiredDisposedCode" none
          [mkNode "value" (some "D") []]]]]]

/-- The transaction record `form4DocW` parses to. -/
def recW : Form4Trans :=
  { executiveName := some "Jane Doe", executiveTitle := some "CFO",
    transactionDate := some "2024-01-02", transactionType := "Sale",
    shares := 100, pricePerShare := 5 / 2, totalValue := 250,
    filingDate := "2024-01-05", formType := "Form 4" }

/-- A Form 4 document reporting a transaction of zero shares. -/
def form4DocZero : Xml := mkNode "ownershipDocument" none
  [mkNode "reportingOwner" none
    [mkNode "reportingOwnerId" none
      [mkNode "rptOwnerName" (some "John Roe") []]],
   mkNode "nonDerivativeTable" none
    [mkNode "nonDerivativeTransaction" none
      [mkNode "transactionDate" none [mkNode "value" (some "2024-02-03") []],
       mkNode "transactionAmounts" none
        [mkNode "transactionShares" none [mkNode "value" (some "0") []],
         mkNode "transactionPricePerShare" none
          [mkNode "value" (some "100") []]]]]]

/-- A Form 4 document with no reporting owner: every parser run on it
yields no transactions. -/
def form4DocEmpty : Xml := mkNode "ownershipDocument" none []

/-- A two-document manifest for the transaction chain: the first matching
XML parses to nothing, the second to one transaction. -/
def linksTwoXml : List Link := [⟨"/doc1.xml", "doc 1"⟩, ⟨"/doc2.xml", "doc 2"⟩]

/-- Fetch map for `linksTwoXml`. -/
def fetchTwoXml : String → Option Body := fun url =>
  if url = "https://www.sec.gov/doc1.xml" then some ⟨some form4DocEmpty, ""⟩
  else if url = "https://www.sec.gov/doc2.xml" then some ⟨some form4DocW, ""⟩
  else none

/-- Two holdings for one investor with equal filing-date strings. -/
def hVanJunA : HRec := ⟨"Vanguard Group", "2024-06-30", 5000000, 1250000000⟩

def hVanJunB : HRec := ⟨"Vanguard Group", "2024-06-30", 6000000, 1500000000⟩

/-- A later filing for the same investor. -/
def hVanSep : HRec := ⟨"Vanguard Group", "2024-09-30", 7000000, 1750000000⟩

/-! ## Helper lemmas -/

theorem firstSome_eq_some {f : α → Option β} {l : List α} {b : β}
    (h : firstSome f l = some b) : ∃ x ∈ l, f x = some b := by
  induction l with
  | nil => simp [firstSome] at h
  | cons x xs ih =>
    rw [firstSome] at h
    cases hx : f x with
    | some b' =>
      rw [hx] at h
      exact ⟨x, List.mem_cons_self x xs, hx.trans h⟩
    | none =>
      rw [hx] at h
      obtain ⟨y, hy, hfy⟩ := ih h
      exact ⟨y, List.mem_cons_of_mem x hy, hfy⟩

theorem firstSome_congr {f g : α → Option β} {l : List α}
    (h : ∀ x ∈ l, f x = g x) : firstSome f l = firstSome g l := by
  induction l with
  | nil => rfl
  | cons x xs ih =>
    rw [firstSome, firstSome, h x (List.mem_cons_self x xs),
      ih fun y hy => h y (List.mem_cons_of_mem x hy)]

theorem enumIdx_mem_lt {l : List α} {i : Nat} {p : Nat × α}
    (h : p ∈ enumIdx i l) : p.1 < i + l.length := by
  induction l generalizing i with
  | nil => simp [enumIdx] at h
  | cons x xs ih =>
    rw [enumIdx, List.mem_cons] at h
    rcases h with h | h
    · subst h; simp
    · have := ih h
      simp only [List.length_cons]
      omega


theorem subtreeCheck_bounds {p : Xml} {r : Holding13F}
    (h : subtreeCheck p = some r) :
    100000 < r.shares ∧ ∃ v, 1 ≤ v ∧ r.valueDollars = v * 1000 := by
  unfold subtreeCheck at h
  rcases hsv : (preorder p).foldl stepPair (none, none) with ⟨s?, v?⟩
  rw [hsv] at h
  cases s? with
  | none => simp at h
  | some s =>
    cases v? with
    | none => simp at h
    | some v =>
      simp only at h
      split_ifs at h with hnz hval
      injection h with hr
      subst hr
      exact ⟨hval.2, v, Nat.one_le_iff_ne_zero.mpr hnz.2, rfl⟩

theorem walkLoop_some {pre : List Xml} :
    ∀ {n k : Nat} {r : Holding13F}, walkLoop pre k n = some r →
      ∃ p, subtreeCheck p = some r := by
  intro n
  induction n with
  | zero =>
    intro k r h
    cases k <;> simp [walkLoop] at h
  | succ n ih =>
    intro k r h
    cases k with
    | zero => simp [walkLoop] at h
    | succ k =>
      rw [walkLoop] at h
      split at h
      · exact absurd h (by simp)
      · rename_i p hp
        split at h
        · rename_i r' hc
          exact ⟨p, hc.trans h⟩
        · exact ih h

theorem hitScan_some {pre : List Xml} :
    ∀ {l : List (Nat × Xml)} {r : Holding13F}, hitScan pre l = some r →
      ∃ p, subtreeCheck p = some r := by
  intro l
  induction l with
  | nil => intro r h; simp [hitScan] at h
  | cons ke rest ih =>
    intro r h
    rcases ke with ⟨k, e⟩
    rw [hitScan] at h
    split_ifs at h with hhit
    · cases hw : walkLoop pre k 5 with
      | some r' =>
        rw [hw] at h
        exact walkLoop_some (hw.trans h)
      | none => rw [hw] at h; exact ih h
    · exact ih h

/-- Every accepted structured-parse result has shares above the
plausibility floor and a value that is a positive multiple of 1000. -/
theorem parse_13f_xml_robust_bounds {root : Xml} {r : Holding13F}
    (h : parse_13f_xml_robust root = some r) :
    100000 < r.shares ∧ ∃ v, 1 ≤ v ∧ r.valueDollars = v * 1000 := by
  unfold parse_13f_xml_robust at h
  obtain ⟨p, hp⟩ := hitScan_some h
  exact subtreeCheck_bounds hp

theorem pickNumbers_bounds {ns : List Nat} {r : Holding13F}
    (h : pickNumbers ns = some r) :
    100000 < r.shares ∧ r.shares < 50000000 ∧ 10000000 < r.valueDollars ∧
      r.shares * 150 < r.valueDollars ∧ r.valueDollars < r.shares * 350 := by
  unfold pickNumbers at h
  split_ifs at h with hlen
  split at h
  case _ s ss v vs hS hV =>
    split_ifs at h with hgate
    injection h with hr
    subst hr
    have hsMem : s ∈ (sortAsc ns).filter (fun n => 100000 < n && n < 50000000) :=
      hS ▸ List.mem_cons_self s ss
    have hvMem : v ∈ (sortAsc ns).filter (fun n => 10000000 < n) :=
      hV ▸ List.mem_cons_self v vs
    have hsProp := (List.mem_filter.mp hsMem).2
    have hvProp := (List.mem_filter.mp hvMem).2
    simp only [Bool.and_eq_true, decide_eq_true_eq] at hsProp hvProp
    exact ⟨hsProp.1, hsProp.2, hvProp, hgate.1, hgate.2⟩
  case _ => exact absurd h (by simp)

theorem tryLine_some {lines : List (List Char)} {i : Nat} {line : List Char}
    {r : Holding13F} (h : tryLine lines i line = some r) :
    pickNumbers (collectNumbers (contextWindow lines i)) = some r := by
  unfold tryLine at h
  split_ifs at h with h1 h2
  exact h

/-- Every accepted heuristic-parse result lies in the share band and the
price-consistency band. -/
theorem parse_13f_text_strict_bounds {text : String} {r : Holding13F}
    (h : parse_13f_text_strict text = some r) :
    100000 < r.shares ∧ r.shares < 50000000 ∧ 10000000 < r.valueDollars ∧
      r.shares * 150 < r.valueDollars ∧ r.valueDollars < r.shares * 350 := by
  unfold parse_13f_text_strict at h
  obtain ⟨p, _, hp⟩ := firstSome_eq_some h
  exact pickNumbers_bounds (tryLine_some hp)

theorem parseNonDerivTransaction_props {own title : Option String}
    {d : String} {t : Xml} {r : Form4Trans}
    (h : parseNonDerivTransaction own title d t = some r) :
    r.totalValue = r.shares * r.pricePerShare ∧
      (r.transactionType = "Sale" ∨ r.transactionType = "Purchase") := by
  unfold parseNonDerivTransaction at h
  dsimp only at h
  split at h
  · rename_i dEl sEl pEl hd hs hp
    split at h
    · rename_i sv pv hsv hpv
      injection h with hr
      subst hr
      refine ⟨rfl, ?_⟩
      simp only
      split_ifs <;> simp
    · exact absurd h (by simp)
  · exact absurd h (by simp)

theorem parse_form4_xml_mem {doc : Option Xml} {d : String} {r : Form4Trans}
    (h : r ∈ parse_form4_xml doc d) :
    ∃ own title t, parseNonDerivTransaction own title d t = some r := by
  unfold parse_form4_xml at h
  split at h
  · exact absurd h (by simp)
  · split at h
    · exact absurd h (by simp)
    · split at h
      · exact absurd h (by simp)
      · obtain ⟨t, _, ht⟩ := List.mem_filterMap.mp h
        exact ⟨_, _, t, ht⟩

/-! ## Claims -/

/-- C10: every HoldingRecord returned by the structured XML holdings parser
has shares strictly greater than 100000 and value_dollars equal to 1000
times a positive integer — hence value_dollars is at least 1000 and an
exact multiple of 1000. -/
theorem C10_theorem : ∀ (root : Xml) (r : Holding13F),
    parse_13f_xml_robust root = some r →
    100000 < r.shares ∧ ∃ v, 1 ≤ v ∧ r.valueDollars = 1000 * v := by
  intro root r h
  obtain ⟨h1, v, hv1, hv2⟩ := parse_13f_xml_robust_bounds h
  exact ⟨h1, v, hv1, by omega⟩

theorem C10_witness :
    parse_13f_xml_robust docGoodXml = some ⟨2000000, 500000000⟩ ∧
      (100000 < (2000000 : Nat) ∧ ∃ v, 1 ≤ v ∧ (500000000 : Nat) = 1000 * v) :=
  ⟨by decide, C10_theorem docGoodXml ⟨2000000, 500000000⟩ (by decide)⟩

/-- C1 (amended): the heuristic text parser never returns a record whose
shares equals 98138 or 98138101; the structured XML parser never returns
shares equal to 98138, but it does not guard against 98138101 (see the
counterexample, where it returns exactly that). -/
theorem C1_theorem :
    (∀ (root : Xml) (r : Holding13F),
      parse_13f_xml_robust root = some r → r.shares ≠ 98138) ∧
    (∀ (text : String) (r : Holding13F),
      parse_13f_text_strict text = some r →
        r.shares ≠ 98138 ∧ r.shares ≠ 98138101) := by
  constructor
  · intro root r h
    have := (parse_13f_xml_robust_bounds h).1
    omega
  · intro text r h
    have h1 := (parse_13f_text_strict_bounds h).1
    have h2 := (parse_13f_text_strict_bounds h).2.1
    omega

theorem C1_counterexample :
    parse_13f_xml_robust docCusipShares = some ⟨98138101, 2000000⟩ := by
  decide

theorem C1_witness :
    (parse_13f_xml_robust docGoodXml = some ⟨2000000, 500000000⟩ ∧
      (2000000 : Nat) ≠ 98138) ∧
    (parse_13f_text_strict textGoodStr = some ⟨500000, 150000000⟩ ∧
      (500000 : Nat) ≠ 98138 ∧ (500000 : Nat) ≠ 98138101) :=
  ⟨⟨by decide, C1_theorem.1 docGoodXml ⟨2000000, 500000000⟩ (by decide)⟩,
   ⟨by decide, C1_theorem.2 textGoodStr ⟨500000, 150000000⟩ (by decide)⟩⟩

/-- C8: the heuristic text fallback parser never emits a record whose value
lies outside the interval [150 × shares, 350 × shares]; a failing occurrence
is rejected (its `tryLine` yields nothing) and the scan continues. -/
theorem C8_theorem : ∀ (text : String) (r : Holding13F),
    parse_13f_text_strict text = some r →
    150 * r.shares ≤ r.valueDollars ∧ r.valueDollars ≤ 350 * r.shares := by
  intro text r h
  have := parse_13f_text_strict_bounds h
  omega

theorem C8_witness :
    parse_13f_text_strict textGoodStr = some ⟨500000, 150000000⟩ ∧
      (150 * 500000 ≤ (150000000 : Nat) ∧ (150000000 : Nat) ≤ 350 * 500000) :=
  ⟨by decide, C8_theorem textGoodStr ⟨500000, 150000000⟩ (by decide)⟩

/-- C9: an identifier occurrence whose context window lacks the target
entity's name and ticker (case-insensitive) emits no record — its
occurrence step `tryLine` yields nothing regardless of the numbers present —
and the parser is exactly the first-success scan of those occurrence
steps. -/
theorem C9_theorem : ∀ (text : String) (i : Nat) (line : List Char),
    containsSub line wdayCusip = true →
    containsSub (windowUpper (contextWindow (splitLines text.data) i))
      workdayUpper = false →
    containsSub (windowUpper (contextWindow (splitLines text.data) i))
      wdayUpper = false →
    tryLine (splitLines text.data) i line = none ∧
      parse_13f_text_strict text =
        firstSome (fun p : Nat × List Char => tryLine (splitLines text.data) p.1 p.2)
          (enumIdx 0 (splitLines text.data)) := by
  intro text i line h1 h2 h3
  refine ⟨?_, rfl⟩
  unfold tryLine
  simp [h1, h2, h3]

theorem C9_witness :
    (containsSub "98138H101".data wdayCusip = true ∧
     containsSub (windowUpper (contextWindow (splitLines textNoEntityStr.data) 1))
       workdayUpper = false ∧
     containsSub (windowUpper (contextWindow (splitLines textNoEntityStr.data) 1))
       wdayUpper = false) ∧
    tryLine (splitLines textNoEntityStr.data) 1 "98138H101".data = none :=
  ⟨⟨by decide, by decide, by decide⟩,
   (C9_theorem textNoEntityStr 1 "98138H101".data (by decide) (by decide)
     (by decide)).1⟩

/-- C7: every TransactionRecord produced by the structured transaction
parser has totalValue equal to shares × pricePerShare — the product of the
two reported fields, never independently sourced. -/
theorem C7_theorem : ∀ (doc : Option Xml) (d : String) (r : Form4Trans),
    r ∈ parse_form4_xml doc d →
    r.totalValue = r.shares * r.pricePerShare := by
  intro doc d r h
  obtain ⟨own, title, t, ht⟩ := parse_form4_xml_mem h
  exact (parseNonDerivTransaction_props ht).1

unseal Rat.mul Rat.inv Rat.add Nat.gcd in
theorem C7_witness :
    recW ∈ parse_form4_xml (some form4DocW) "2024-01-05" ∧
      recW.totalValue = recW.shares * recW.pricePerShare :=
  ⟨by decide, C7_theorem (some form4DocW) "2024-01-05" recW (by decide)⟩

/-- C6 (amended): every TransactionRecord emitted by the structured
transaction parser has transactionType Sale or Purchase; its shares and
pricePerShare are the parsed field values taken verbatim, with no
positivity constraint enforced — the counterexample exhibits an emitted
record with shares = 0. -/
theorem C6_theorem : ∀ (doc : Option Xml) (d : String) (r : Form4Trans),
    r ∈ parse_form4_xml doc d →
    r.transactionType = "Sale" ∨ r.transactionType = "Purchase" := by
  intro doc d r h
  obtain ⟨own, title, t, ht⟩ := parse_form4_xml_mem h
  exact (parseNonDerivTransaction_props ht).2

unseal Rat.mul Rat.inv Rat.add Nat.gcd in
theorem C6_counterexample :
    (parse_form4_xml (some form4DocZero) "2024-02-05").map Form4Trans.shares
      = [0] ∧ ¬ (0 : ℚ) > 0 :=
  ⟨by decide, by norm_num⟩

unseal Rat.mul Rat.inv Rat.add Nat.gcd in
theorem C6_witness :
    recW ∈ parse_form4_xml (some form4DocW) "2024-01-05" ∧
      (recW.transactionType = "Sale" ∨ recW.transactionType = "Purchase") :=
  ⟨by decide, C6_theorem (some form4DocW) "2024-01-05" recW (by decide)⟩

/-- C2 (amended): when the run's initial filings-index fetch yields no page
body, the refresh call raises an HTTP 500 exception ("Error refreshing
data: 500: Failed to fetch SEC data") to the transport layer instead of
returning an empty run result. -/
theorem C2_theorem :
    ∀ (parseList : String → List FilingRef)
      (fetchParse : FilingRef → List Form4Trans),
    refresh_transactions none parseList fetchParse =
      .error ⟨500, "Error refreshing data: 500: Failed to fetch SEC data"⟩ :=
  fun _ _ => rfl

theorem C2_counterexample :
    refresh_transactions none (fun _ => []) (fun _ => []) =
      .error ⟨500, "Error refreshing data: 500: Failed to fetch SEC data"⟩ :=
  rfl

/-- C3 (amended): in the holdings chain, a retrieved candidate whose parse
is empty causes the resolver to advance to the next candidate; in the
transaction chain, the first retrieved matching document's parse result is
returned unconditionally — an empty parse ends the chain (see the
counterexample). -/
theorem C3_theorem :
    (∀ (fetch : String → Option Body) (parser : Body → Option Holding13F)
        (l : Link) (ls : List Link) (b : Body),
      fetch (resolveUrl l.href) = some b → parser b = none →
      tryLinks fetch parser (l :: ls) = tryLinks fetch parser ls) ∧
    (∀ (links : List Link) (fetch : String → Option Body) (d : String)
        (l : Link) (b : Body),
      links.find? form4LinkPred = some l →
      fetch (resolveUrl l.href) = some b →
      fetch_and_parse_form4 links fetch d = parse_form4_xml b.asXml d) := by
  constructor
  · intro fetch parser l ls b hf hp
    conv_lhs => rw [tryLinks]
    rw [hf]
    dsimp only
    rw [hp]
  · intro links fetch d l b hfind hf
    unfold fetch_and_parse_form4
    rw [hfind]
    dsimp only
    rw [hf]

theorem C3_counterexample :
    fetch_and_parse_form4 linksTwoXml fetchTwoXml "2024-01-05" = [] ∧
    fetchTwoXml (resolveUrl "/doc2.xml") = some ⟨some form4DocW, ""⟩ ∧
    parse_form4_xml (some form4DocW) "2024-01-05" ≠ [] :=
  ⟨rfl, by decide, by decide⟩

theorem C3_witness :
    (fetchTwoXml (resolveUrl "/doc1.xml") = some ⟨some form4DocEmpty, ""⟩ ∧
     xmlBodyParse ⟨some form4DocEmpty, ""⟩ = none ∧
     tryLinks fetchTwoXml xmlBodyParse [⟨"/doc1.xml", "doc 1"⟩] =
       tryLinks fetchTwoXml xmlBodyParse []) ∧
    (linksTwoXml.find? form4LinkPred = some ⟨"/doc1.xml", "doc 1"⟩ ∧
     fetch_and_parse_form4 linksTwoXml fetchTwoXml "2024-01-05" =
       parse_form4_xml (some form4DocEmpty) "2024-01-05") :=
  ⟨⟨by decide, by decide,
    C3_theorem.1 fetchTwoXml xmlBodyParse ⟨"/doc1.xml", "doc 1"⟩ []
      ⟨some form4DocEmpty, ""⟩ (by decide) (by decide)⟩,
   ⟨by decide,
    C3_theorem.2 linksTwoXml fetchTwoXml "2024-01-05" ⟨"/doc1.xml", "doc 1"⟩
      ⟨some form4DocEmpty, ""⟩ (by decide) (by decide)⟩⟩

theorem hitScan_eq_firstSome {pre : List Xml} :
    ∀ l : List (Nat × Xml),
      hitScan pre l =
        firstSome
          (fun ke : Nat × Xml =>
            if isCusipHit ke.2 then walkLoop pre ke.1 5 else none) l := by
  intro l
  induction l with
  | nil => rfl
  | cons ke rest ih =>
    rcases ke with ⟨k, e⟩
    rw [hitScan, firstSome]
    cases hhit : isCusipHit e with
    | true =>
      simp only [hhit, if_true]
      cases walkLoop pre k 5 with
      | some r => rfl
      | none => exact ih
    | false =>
      simp only [hhit, if_false]
      exact ih

theorem walkLoop_eq_firstSome {pre : List Xml} :
    ∀ (n k : Nat), k ≤ pre.length →
      walkLoop pre k n = firstSome subtreeCheck ((pre.take k).reverse.take n) := by
  intro n
  induction n with
  | zero =>
    intro k hk
    cases k with
    | zero => rfl
    | succ k => rfl
  | succ n ih =>
    intro k hk
    cases k with
    | zero => rfl
    | succ k =>
      have hklt : k < pre.length := by omega
      have hget : pre[k]? = some (pre.get ⟨k, hklt⟩) := by
        rw [List.getElem?_eq_getElem hklt]
        rfl
      rw [walkLoop, hget]
      dsimp only
      have htake : pre.take (k + 1) = pre.take k ++ [pre.get ⟨k, hklt⟩] := by
        rw [List.take_succ, hget]
        rfl
      rw [htake, List.reverse_append, List.reverse_singleton,
        List.singleton_append, List.take_succ_cons, firstSome]
      cases subtreeCheck (pre.get ⟨k, hklt⟩) with
      | some r => rfl
      | none => exact ih k (by omega)

/-- C5 (amended): at an identifier hit, the structured holdings parser does
not walk the hit's ancestors; it walks backward through at most five
preceding elements in document order (nearest first) and, within each such
element's full subtree, runs the shares/value search and validation,
accepting the first element whose subtree yields a validated pair.  The
parser equals the predecessor-walk description on every document (the
counterexample separates it from the specification's ancestor walk). -/
theorem C5_theorem : ∀ root : Xml,
    parse_13f_xml_robust root = parse_13f_xml_predWalk root := by
  intro root
  unfold parse_13f_xml_robust parse_13f_xml_predWalk
  dsimp only
  rw [hitScan_eq_firstSome]
  apply firstSome_congr
  intro ke hke
  have hk : ke.1 < 0 + (preorder root).length := enumIdx_mem_lt hke
  cases hhit : isCusipHit ke.2 with
  | true =>
    simp only [hhit, if_true]
    unfold predCandidates
    exact walkLoop_eq_firstSome 5 ke.1 (by omega)
  | false => simp [hhit]

theorem C5_counterexample :
    parse_13f_xml_robust docRowC5 = none ∧
      parse_13f_xml_ancestors docRowC5 = some ⟨2000000, 500000⟩ :=
  ⟨by decide, by decide⟩

theorem char_toNat_inj {a b : Char} (h : a.toNat = b.toNat) : a = b := by
  unfold Char.toNat at h
  exact Char.eq_of_val_eq (by ext; exact h)

theorem listLt_irrefl : ∀ l : List Char, listLt l l = false := by
  intro l
  induction l with
  | nil => rfl
  | cons a as ih => simp [listLt, ih]

theorem listLt_trans :
    ∀ a b c : List Char, listLt a b = true → listLt b c = true →
      listLt a c = true := by
  intro a
  induction a with
  | nil =>
    intro b c hab hbc
    cases b with
    | nil => simp [listLt] at hab
    | cons y ys =>
      cases c with
      | nil => simp [listLt] at hbc
      | cons z zs => simp [listLt]
  | cons x xs ih =>
    intro b c hab hbc
    cases b with
    | nil => simp [listLt] at hab
    | cons y ys =>
      cases c with
      | nil => simp [listLt] at hbc
      | cons z zs =>
        simp only [listLt, Bool.or_eq_true, Bool.and_eq_true,
          decide_eq_true_eq] at hab hbc ⊢
        rcases hab with hab | ⟨hab1, hab2⟩
        · rcases hbc with hbc | ⟨hbc1, hbc2⟩
          · exact Or.inl (Nat.lt_trans hab hbc)
          · subst hbc1
            exact Or.inl hab
        · subst hab1
          rcases hbc with hbc | ⟨hbc1, hbc2⟩
          · exact Or.inl hbc
          · subst hbc1
            exact Or.inr ⟨rfl, ih ys zs hab2 hbc2⟩

theorem listLt_trichot :
    ∀ a b : List Char, listLt a b = true ∨ listLt b a = true ∨ a = b := by
  intro a
  induction a with
  | nil =>
    intro b
    cases b with
    | nil => exact Or.inr (Or.inr rfl)
    | cons y ys => exact Or.inl rfl
  | cons x xs ih =>
    intro b
    cases b with
    | nil => exact Or.inr (Or.inl rfl)
    | cons y ys =>
      rcases Nat.lt_trichotomy x.toNat y.toNat with hlt | heq | hgt
      · refine Or.inl ?_
        simp [listLt, hlt]
      case inr.inr =>
        refine Or.inr (Or.inl ?_)
        simp [listLt, hgt]
      · have hxy : x = y := char_toNat_inj heq
        subst hxy
        rcases ih ys with h | h | h
        · refine Or.inl ?_
          simp [listLt, h]
        · refine Or.inr (Or.inl ?_)
          simp [listLt, h]
        · subst h
          exact Or.inr (Or.inr rfl)

theorem listLt_asymm {a b : List Char} (h1 : listLt a b = true)
    (h2 : listLt b a = true) : False := by
  have := listLt_trans a b a h1 h2
  rw [listLt_irrefl] at this
  exact Bool.false_ne_true this

theorem champAux_mem : ∀ (t : List HRec) (c : HRec), champAux c t ∈ c :: t := by
  intro t
  induction t with
  | nil => intro c; exact List.mem_cons_self c []
  | cons h t ih =>
    intro c
    rw [champAux]
    split_ifs with hlt
    · exact List.mem_cons_of_mem c (ih h)
    · rcases List.mem_cons.mp (ih c) with h1 | h1
      · rw [h1]
        exact List.mem_cons_self c (h :: t)
      · exact List.mem_cons_of_mem c (List.mem_cons_of_mem h h1)

theorem champAux_not_lt : ∀ (t : List HRec) (c r : HRec), r ∈ c :: t →
    listLt (champAux c t).filingDate.data r.filingDate.data = false := by
  intro t
  induction t with
  | nil =>
    intro c r hr
    rw [List.mem_singleton] at hr
    subst hr
    exact listLt_irrefl _
  | cons h t ih =>
    intro c r hr
    rw [champAux]
    rcases List.mem_cons.mp hr with hrc | hr2
    · subst hrc
      split_ifs with hlt
      · by_contra hcon
        rw [Bool.not_eq_false] at hcon
        have h2 := listLt_trans _ _ _ hcon hlt
        have h3 := ih h h (List.mem_cons_self h t)
        rw [h3] at h2
        exact Bool.false_ne_true h2
      · exact ih r r (List.mem_cons_self r t)
    · rcases List.mem_cons.mp hr2 with hrh | hrt
      · subst hrh
        split_ifs with hlt
        · exact ih r r (List.mem_cons_self r t)
        · by_contra hcon
          rw [Bool.not_eq_false] at hcon
          have h3 := ih c c (List.mem_cons_self c t)
          rcases listLt_trichot c.filingDate.data r.filingDate.data with
            hch | hhc | heq
          · exact hlt hch
          · have h4 := listLt_trans _ _ _ hcon hhc
            rw [h3] at h4
            exact Bool.false_ne_true h4
          · rw [← heq] at hcon
            rw [h3] at hcon
            exact Bool.false_ne_true hcon
      · split_ifs with hlt
        · exact ih h r (List.mem_cons_of_mem h hrt)
        · exact ih c r (List.mem_cons_of_mem c hrt)

theorem filterName_cons (name : String) (h : HRec) (t : List HRec) :
    filterName name (h :: t) =
      if h.investorName = name then h :: filterName name t
      else filterName name t := by
  by_cases hh : h.investorName = name <;>
    simp [filterName, List.filter_cons, hh]

theorem filterName_append (name : String) (l : List HRec) (h : HRec) :
    filterName name (l ++ [h]) =
      filterName name l ++ if h.investorName = name then [h] else [] := by
  simp only [filterName, List.filter_append]
  congr 1
  by_cases hh : h.investorName = name <;> simp [hh]

theorem findInv_append (name : String) (l : List HRec) (h : HRec) :
    findInv name (l ++ [h]) =
      match findInv name l with
      | some c => some c
      | none => if h.investorName = name then some h else none := by
  induction l with
  | nil => simp [findInv]
  | cons r rs ih =>
    simp only [List.cons_append, findInv]
    by_cases hr : r.investorName = name
    · simp [hr]
    · simp [hr, ih]

theorem replaceInv_filter_match {h c : HRec} {name : String}
    (hn : h.investorName = name) :
    ∀ l : List HRec, filterName name l = [c] →
      filterName name (replaceInv h l) = [h] := by
  intro l
  induction l with
  | nil => intro hf; simp [filterName] at hf
  | cons r rs ih =>
    intro hf
    rw [replaceInv]
    by_cases hr : r.investorName = h.investorName
    · rw [if_pos hr]
      rw [filterName_cons, if_pos (hr.trans hn)] at hf
      rw [filterName_cons, if_pos hn]
      injection hf with h1 h2
      rw [h2]
    · rw [if_neg hr]
      have hrn : ¬ r.investorName = name := fun hh => hr (hh.trans hn.symm)
      rw [filterName_cons, if_neg hrn] at hf
      rw [filterName_cons, if_neg hrn]
      exact ih hf

theorem replaceInv_findInv_match {h c : HRec} {name : String}
    (hn : h.investorName = name) :
    ∀ l : List HRec, findInv name l = some c →
      findInv name (replaceInv h l) = some h := by
  intro l
  induction l with
  | nil => intro hf; simp [findInv] at hf
  | cons r rs ih =>
    intro hf
    rw [replaceInv]
    by_cases hr : r.investorName = h.investorName
    · rw [if_pos hr, findInv, if_pos hn]
    · rw [if_neg hr, findInv]
      have hrn : ¬ r.investorName = name := fun hh => hr (hh.trans hn.symm)
      rw [if_neg hrn]
      rw [findInv, if_neg hrn] at hf
      exact ih hf

theorem replaceInv_nonmatch {h : HRec} {name : String}
    (hn : ¬ h.investorName = name) :
    ∀ l : List HRec,
      filterName name (replaceInv h l) = filterName name l ∧
        findInv name (replaceInv h l) = findInv name l := by
  intro l
  induction l with
  | nil => exact ⟨rfl, rfl⟩
  | cons r rs ih =>
    rw [replaceInv]
    by_cases hr : r.investorName = h.investorName
    · rw [if_pos hr]
      have hrn : ¬ r.investorName = name := fun hh => hn (hr.symm.trans hh)
      constructor
      · rw [filterName_cons, if_neg hn, filterName_cons, if_neg hrn]
      · rw [findInv, if_neg hn, findInv, if_neg hrn]
    · rw [if_neg hr]
      constructor
      · rw [filterName_cons, filterName_cons]
        by_cases hrn : r.investorName = name
        · rw [if_pos hrn, if_pos hrn, ih.1]
        · rw [if_neg hrn, if_neg hrn]
          exact ih.1
      · rw [findInv, findInv]
        by_cases hrn : r.investorName = name
        · rw [if_pos hrn, if_pos hrn]
        · rw [if_neg hrn, if_neg hrn]
          exact ih.2

theorem byInvestor_aux : ∀ (hs acc : List HRec) (name : String),
    (filterName name acc = [] → findInv name acc = none →
      filterName name (hs.foldl updInv acc) =
        champList (filterName name hs)) ∧
    (∀ c, filterName name acc = [c] → findInv name acc = some c →
      filterName name (hs.foldl updInv acc) =
        [champAux c (filterName name hs)]) := by
  intro hs
  induction hs with
  | nil =>
    intro acc name
    constructor
    · intro h1 _
      rw [List.foldl_nil, h1]
      rfl
    · intro c h1 _
      rw [List.foldl_nil, h1]
      rfl
  | cons h hs ih =>
    intro acc name
    rw [List.foldl_cons]
    constructor
    · intro hf hn
      rw [updInv]
      by_cases hname : h.investorName = name
      · rw [hname, hn]
        dsimp only
        have hacc1 : filterName name (acc ++ [h]) = [h] := by
          rw [filterName_append, hf, if_pos hname, List.nil_append]
        have hacc2 : findInv name (acc ++ [h]) = some h := by
          rw [findInv_append, hn]
          dsimp only
          rw [if_pos hname]
        rw [(ih (acc ++ [h]) name).2 h hacc1 hacc2, filterName_cons,
          if_pos hname]
        rfl
      · cases hfind : findInv h.investorName acc with
        | none =>
          dsimp only
          have hacc1 : filterName name (acc ++ [h]) = [] := by
            rw [filterName_append, hf, if_neg hname, List.append_nil]
          have hacc2 : findInv name (acc ++ [h]) = none := by
            rw [findInv_append, hn]
            dsimp only
            rw [if_neg hname]
          rw [(ih (acc ++ [h]) name).1 hacc1 hacc2, filterName_cons,
            if_neg hname]
        | some old =>
          dsimp only
          split_ifs with hlt
          · have hrep := replaceInv_nonmatch hname acc
            rw [(ih (replaceInv h acc) name).1 (hrep.1.trans hf)
              (hrep.2.trans hn), filterName_cons, if_neg hname]
          · rw [(ih acc name).1 hf hn, filterName_cons, if_neg hname]
    · intro c hf hn
      rw [updInv]
      by_cases hname : h.investorName = name
      · rw [hname, hn]
        dsimp only
        split_ifs with hlt
        · have h1 := replaceInv_filter_match hname acc hf
          have h2 := replaceInv_findInv_match hname acc hn
          rw [(ih (replaceInv h acc) name).2 h h1 h2, filterName_cons,
            if_pos hname, champAux, if_pos hlt]
        · rw [(ih acc name).2 c hf hn, filterName_cons, if_pos hname,
            champAux, if_neg hlt]
      · cases hfind : findInv h.investorName acc with
        | none =>
          dsimp only
          have hacc1 : filterName name (acc ++ [h]) = [c] := by
            rw [filterName_append, hf, if_neg hname, List.append_nil]
          have hacc2 : findInv name (acc ++ [h]) = some c := by
            rw [findInv_append, hn]
          rw [(ih (acc ++ [h]) name).2 c hacc1 hacc2, filterName_cons,
            if_neg hname]
        | some old =>
          dsimp only
          split_ifs with hlt
          · have hrep := replaceInv_nonmatch hname acc
            rw [(ih (replaceInv h acc) name).2 c (hrep.1.trans hf)
              (hrep.2.trans hn), filterName_cons, if_neg hname]
          · rw [(ih acc name).2 c hf hn, filterName_cons, if_neg hname]

/-- C4 (amended): for every input list, the deduplication loop shared by
`calculate_stats` and `generate_cluster_data` keeps exactly one record per
investor name present — a record of that investor whose filingDate string is
maximal — and when two records carry an equal filingDate string the
first-seen record wins: the survivor is exactly the left-fold champion
`champAux`, which replaces the incumbent only on a strictly later date. -/
theorem C4_theorem : ∀ (hs : List HRec) (name : String) (h0 : HRec)
    (rest : List HRec),
    filterName name hs = h0 :: rest →
    filterName name (byInvestor hs) = [champAux h0 rest] ∧
      champAux h0 rest ∈ h0 :: rest ∧
      ∀ r ∈ h0 :: rest,
        listLt (champAux h0 rest).filingDate.data r.filingDate.data = false := by
  intro hs name h0 rest hf
  refine ⟨?_, champAux_mem rest h0, fun r hr => champAux_not_lt rest h0 r hr⟩
  have h1 := (byInvestor_aux hs [] name).1 rfl rfl
  rw [hf] at h1
  exact h1

theorem C4_counterexample :
    byInvestor [hVanJunA, hVanJunB] = [hVanJunA] ∧ hVanJunA ≠ hVanJunB :=
  ⟨by decide, by decide⟩

theorem C4_witness :
    filterName "Vanguard Group" [hVanJunA, hVanSep, hVanJunB] =
      hVanJunA :: [hVanSep, hVanJunB] ∧
    (filterName "Vanguard Group" (byInvestor [hVanJunA, hVanSep, hVanJunB]) =
        [champAux hVanJunA [hVanSep, hVanJunB]] ∧
      champAux hVanJunA [hVanSep, hVanJunB] ∈
        hVanJunA :: [hVanSep, hVanJunB] ∧
      ∀ r ∈ hVanJunA :: [hVanSep, hVanJunB],
        listLt (champAux hVanJunA [hVanSep, hVanJunB]).filingDate.data
          r.filingDate.data = false) :=
  ⟨by decide,
   C4_theorem [hVanJunA, hVanSep, hVanJunB] "Vanguard Group" hVanJunA
     [hVanSep, hVanJunB] (by decide)⟩
